import Mathlib

/-!
Verification of the pypette orchestration engine against its design
specification.  The definitions below are shallow embeddings of the
Python modules `pypette/experiment.py`, `pypette/interface.py`,
`pypette/volume.py`, `pypette/agent.py`,
`pypette/technique/acquisition.py`, `pypette/technique/control.py` and
`pypette/technique/behaviour/vector.py`.  External effects (the
virtualisation platform, sockets, subprocesses, `uuid.uuid4()`) are
modelled as explicit environment parameters, and the observable calls
made by the engine are recorded as event traces.
-/

namespace Pypette

namespace Experiment

/-- Outcome of one execution attempt of `conduct` (experiment.py,
lines 26-35): either every statement of the `try` block returns
normally, or the first exception is raised by `technique.allocate()`,
by `technique.sample()`, or by the `analyse` call of the analyst at
position `j` of the analyst list. -/
inductive Outcome where
  | success : Outcome
  | failAllocate : Outcome
  | failSample : Outcome
  | failAnalyse (j : Nat) : Outcome
deriving DecidableEq, Repr

/-- A failing attempt is any attempt whose outcome is not `success`;
the bare `except:` clause of `conduct` catches every exception. -/
def Outcome.isFailure : Outcome → Bool
  | .success => false
  | _ => true

/-- Environment of one run of `conduct`: `outcomes k` is the outcome of
the `k`-th attempt of the loop (attempts are numbered in the order they
are executed), and `u k` is the value returned by the `k`-th call of
`uuid.uuid4()` (modelled as an abstract stream of 128-bit numbers:
`uuid.uuid4()` is a random source, so the stream is arbitrary). -/
structure Env where
  outcomes : Nat → Outcome
  u : Nat → Nat

/-- Observable calls made by `conduct`.  `k` is the attempt index and
`id` the execution identity (`identities[k]`, which is the `k`-th value
minted by `uuid.uuid4()`); `i` is the position of an analyst in the
analyst list. -/
inductive Ev where
  | allocate (k : Nat) (id : Nat)
  | sample (k : Nat)
  | analyse (i : Nat) (id : Nat)
  | discard (i : Nat) (id : Nat)
  | release (k : Nat)
  | collate (i : Nat)
deriving DecidableEq, Repr

/-- The trace of calls of the body of the `for execution in identities`
loop of `conduct` for attempt `k`, with `A` registered analysts:
`allocate`, `sample` and the `analyse` calls up to the first exception,
then on an exception one `discard` per analyst (experiment.py lines
33-34), and in every case exactly one final `release` (the `finally`
clause, line 37).  On `failAnalyse j` the analysts `0..j-1` completed
their `analyse` call and the call to analyst `j` itself was made (and
raised), so `j + 1` analyse calls occur. -/
def attemptTrace (env : Env) (A k : Nat) : List Ev :=
  match env.outcomes k with
  | .success =>
      [Ev.allocate k (env.u k), Ev.sample k] ++
        ((List.range A).map fun i => Ev.analyse i (env.u k)) ++
        [Ev.release k]
  | .failAllocate =>
      [Ev.allocate k (env.u k)] ++
        ((List.range A).map fun i => Ev.discard i (env.u k)) ++
        [Ev.release k]
  | .failSample =>
      [Ev.allocate k (env.u k), Ev.sample k] ++
        ((List.range A).map fun i => Ev.discard i (env.u k)) ++
        [Ev.release k]
  | .failAnalyse j =>
      [Ev.allocate k (env.u k), Ev.sample k] ++
        ((List.range (j + 1)).map fun i => Ev.analyse i (env.u k)) ++
        ((List.range A).map fun i => Ev.discard i (env.u k)) ++
        [Ev.release k]

/-- The conductor loop of `conduct` (experiment.py lines 24-37).
Python's `for` statement iterates over the growing `identities` list by
position, so the loop processes attempt `k` as long as `k` is below the
current length `total`; a failing attempt appends one fresh identity
(`identities.append(uuid.uuid4())`, line 35), raising the length by
one.  When the queue drains, `collate` is called once per analyst in
declared order (lines 38-39).  `fuel` bounds the number of iterations
so that the embedding is total; `none` means the bound was exhausted
before the queue drained. -/
def conductLoop (env : Env) (A : Nat) : Nat → Nat → Nat → Option (List Ev)
  | 0, k, total =>
      if k = total then some ((List.range A).map Ev.collate) else none
  | fuel + 1, k, total =>
      if k = total then some ((List.range A).map Ev.collate)
      else
        (conductLoop env A fuel (k + 1)
            (if (env.outcomes k).isFailure then total + 1 else total)).map
          (fun tr => attemptTrace env A k ++ tr)

/-- `conduct(definition)` for a definition requesting `N` executions
and registering `A` analysts: seed `N` identities and run the loop. -/
def conduct (env : Env) (A N fuel : Nat) : Option (List Ev) :=
  conductLoop env A fuel 0 N

/-- Number of `analyse` calls received by the analyst at position `i`. -/
def countAnalyse (tr : List Ev) (i : Nat) : Nat :=
  tr.countP fun e => match e with
    | Ev.analyse j _ => j == i
    | _ => false

/-- Execution identities for which some analyst received a `discard`
call. -/
def discardedIds (tr : List Ev) : List Nat :=
  tr.filterMap fun e => match e with
    | Ev.discard _ id => some id
    | _ => none

/-- Number of `analyse` calls received by analyst `i` whose execution
identity is outside the list `ds`. -/
def countRetainedIn (ds : List Nat) (tr : List Ev) (i : Nat) : Nat :=
  tr.countP fun e => match e with
    | Ev.analyse j id => j == i && !(ds.contains id)
    | _ => false

/-- Number of `analyse` calls received by analyst `i` whose execution
identity is never discarded in the trace. -/
def countRetained (tr : List Ev) (i : Nat) : Nat :=
  countRetainedIn (discardedIds tr) tr i

/-- Number of `collate` calls received by analyst `i`. -/
def countCollate (tr : List Ev) (i : Nat) : Nat :=
  tr.countP fun e => match e with
    | Ev.collate j => j == i
    | _ => false

/-- Number of `allocate` calls made on the technique of attempt `k`
(each attempt constructs a fresh technique, experiment.py line 25). -/
def countAllocate (tr : List Ev) (k : Nat) : Nat :=
  tr.countP fun e => match e with
    | Ev.allocate m _ => m == k
    | _ => false

/-- Number of `release` calls made on the technique of attempt `k`. -/
def countRelease (tr : List Ev) (k : Nat) : Nat :=
  tr.countP fun e => match e with
    | Ev.release m => m == k
    | _ => false

/-- Number of `discard` calls received by analyst `i` for identity
`id`. -/
def countDiscard (tr : List Ev) (i id : Nat) : Nat :=
  tr.countP fun e => match e with
    | Ev.discard j id2 => j == i && id2 == id
    | _ => false

/-- The execution identity of each attempt, in attempt order (read off
the `allocate` events). -/
def allocIds (tr : List Ev) : List Nat :=
  tr.filterMap fun e => match e with
    | Ev.allocate _ id => some id
    | _ => none

/-- Counting occurrences of `i` in `List.range n`. -/
lemma countP_beq_range (i n : Nat) :
    (List.range n).countP (fun j => j == i) = if i < n then 1 else 0 := by
  induction n with
  | zero => simp
  | succ n ih =>
    rw [List.range_succ, List.countP_append, ih]
    have hc : List.countP (fun j => j == i) [n] = if n = i then 1 else 0 := by
      simp [List.countP_cons]
    rw [hc]
    by_cases h1 : i < n
    · have h2 : i < n + 1 := Nat.lt_succ_of_lt h1
      have h3 : ¬n = i := Nat.ne_of_gt h1
      simp [h1, h2, h3]
    · by_cases h4 : i = n
      · subst h4
        simp [h1]
      · have h5 : ¬i < n + 1 := by omega
        have h6 : ¬n = i := fun hh => h4 hh.symm
        simp [h1, h5, h6]

/-- A terminating run can only start at a queue position not past the
current queue length. -/
lemma conductLoop_le (env : Env) (A : Nat) :
    ∀ fuel k total tr, conductLoop env A fuel k total = some tr → k ≤ total := by
  intro fuel
  induction fuel with
  | zero =>
    intro k total tr h
    simp only [conductLoop] at h
    by_cases hk : k = total
    · exact hk.le
    · rw [if_neg hk] at h
      cases h
  | succ fuel ih =>
    intro k total tr h
    simp only [conductLoop] at h
    by_cases hk : k = total
    · exact hk.le
    · rw [if_neg hk] at h
      obtain ⟨tr', h', -⟩ := Option.map_eq_some'.mp h
      have hle := ih (k + 1) _ tr' h'
      by_cases hf : (env.outcomes k).isFailure <;> simp [hf] at hle <;> omega

/-- An attempt block contains no `collate` call. -/
lemma countCollate_attemptTrace (env : Env) (A k i : Nat) :
    countCollate (attemptTrace env A k) i = 0 := by
  cases h : env.outcomes k <;>
    simp [attemptTrace, h, countCollate, List.countP_append, List.countP_cons,
      List.countP_map, Function.comp_def, List.countP_false, Function.const]

/-- An attempt block contains exactly one `allocate` call, on the
technique of that attempt. -/
lemma countAllocate_attemptTrace (env : Env) (A k m : Nat) :
    countAllocate (attemptTrace env A k) m = if k = m then 1 else 0 := by
  cases h : env.outcomes k <;>
    simp [attemptTrace, h, countAllocate, List.countP_append, List.countP_cons,
      List.countP_map, Function.comp_def, List.countP_false, Function.const]

/-- An attempt block contains exactly one `release` call, on the
technique of that attempt (the `finally` clause). -/
lemma countRelease_attemptTrace (env : Env) (A k m : Nat) :
    countRelease (attemptTrace env A k) m = if k = m then 1 else 0 := by
  cases h : env.outcomes k <;>
    simp [attemptTrace, h, countRelease, List.countP_append, List.countP_cons,
      List.countP_map, Function.comp_def, List.countP_false, Function.const]

/-- `analyse` calls to analyst `i` in one attempt block: one on
success, none when `allocate` or `sample` raises, and one when the
attempt fails during the `analyse` of analyst `j` with `i ≤ j`. -/
lemma countAnalyse_attemptTrace (env : Env) (A k i : Nat) :
    countAnalyse (attemptTrace env A k) i =
      match env.outcomes k with
      | .success => if i < A then 1 else 0
      | .failAnalyse j => if i < j + 1 then 1 else 0
      | _ => 0 := by
  cases h : env.outcomes k <;>
    simp [attemptTrace, h, countAnalyse, List.countP_append, List.countP_cons,
      List.countP_map, Function.comp_def, List.countP_false, Function.const,
      countP_beq_range]

/-- All events recorded for execution identities. -/
def traceIds (tr : List Ev) : List Nat :=
  tr.filterMap fun e => match e with
    | Ev.allocate _ id => some id
    | Ev.analyse _ id => some id
    | Ev.discard _ id => some id
    | _ => none

lemma countAnalyse_append (a b : List Ev) (i : Nat) :
    countAnalyse (a ++ b) i = countAnalyse a i + countAnalyse b i := by
  simp [countAnalyse, List.countP_append]

lemma countRetainedIn_append (ds : List Nat) (a b : List Ev) (i : Nat) :
    countRetainedIn ds (a ++ b) i = countRetainedIn ds a i + countRetainedIn ds b i := by
  simp [countRetainedIn, List.countP_append]

lemma countCollate_append (a b : List Ev) (i : Nat) :
    countCollate (a ++ b) i = countCollate a i + countCollate b i := by
  simp [countCollate, List.countP_append]

lemma countAllocate_append (a b : List Ev) (k : Nat) :
    countAllocate (a ++ b) k = countAllocate a k + countAllocate b k := by
  simp [countAllocate, List.countP_append]

lemma countRelease_append (a b : List Ev) (k : Nat) :
    countRelease (a ++ b) k = countRelease a k + countRelease b k := by
  simp [countRelease, List.countP_append]

lemma countDiscard_append (a b : List Ev) (i id : Nat) :
    countDiscard (a ++ b) i id = countDiscard a i id + countDiscard b i id := by
  simp [countDiscard, List.countP_append]

lemma discardedIds_append (a b : List Ev) :
    discardedIds (a ++ b) = discardedIds a ++ discardedIds b := by
  simp [discardedIds, List.filterMap_append]

lemma allocIds_append (a b : List Ev) :
    allocIds (a ++ b) = allocIds a ++ allocIds b := by
  simp [allocIds, List.filterMap_append]

lemma filterMap_const_some {α : Type} (c : Nat) (l : List α) :
    List.filterMap (fun _ => some c) l = List.replicate l.length c := by
  induction l with
  | nil => simp
  | cons a l ih => simp [ih, List.replicate_succ]

lemma filterMap_const_none {α β : Type} (l : List α) :
    List.filterMap (fun _ => (none : Option β)) l = [] := by
  induction l with
  | nil => simp
  | cons a l ih => simp [ih]

lemma contains_eq_decide_mem {α : Type} [DecidableEq α] (l : List α) (a : α) :
    l.contains a = decide (a ∈ l) := by
  by_cases hx : a ∈ l <;> simp [hx]

lemma contains_congr {α : Type} [DecidableEq α] {l l' : List α} {a : α}
    (h : a ∈ l ↔ a ∈ l') : l.contains a = l'.contains a := by
  rw [contains_eq_decide_mem, contains_eq_decide_mem]
  exact decide_eq_decide.mpr h

lemma mem_traceIds_of_discarded {tr : List Ev} {id : Nat}
    (h : id ∈ discardedIds tr) : id ∈ traceIds tr := by
  rw [discardedIds, List.mem_filterMap] at h
  obtain ⟨e, he, hfe⟩ := h
  rw [traceIds, List.mem_filterMap]
  refine ⟨e, he, ?_⟩
  cases e <;> simp_all

lemma mem_traceIds_of_analyse {tr : List Ev} {j id : Nat}
    (h : Ev.analyse j id ∈ tr) : id ∈ traceIds tr := by
  rw [traceIds, List.mem_filterMap]
  exact ⟨Ev.analyse j id, h, rfl⟩

/-- All identities recorded in one attempt block are the identity of
that attempt. -/
lemma traceIds_attemptTrace (env : Env) (A k : Nat) :
    ∀ id ∈ traceIds (attemptTrace env A k), id = env.u k := by
  intro id hid
  cases h : env.outcomes k <;>
    simp [attemptTrace, h, traceIds, List.filterMap_append, List.filterMap_map,
      Function.comp_def, List.mem_append, List.mem_replicate] at hid <;>
    tauto

/-- The identities discarded in one attempt block: the identity of the
attempt, once per analyst, exactly when the attempt fails. -/
lemma discardedIds_attemptTrace (env : Env) (A k : Nat) :
    discardedIds (attemptTrace env A k) =
      if (env.outcomes k).isFailure = true then List.replicate A (env.u k) else [] := by
  cases h : env.outcomes k <;>
    simp [attemptTrace, h, discardedIds, Outcome.isFailure, List.filterMap_append,
      List.filterMap_map, Function.comp_def, filterMap_const_some, filterMap_const_none]

lemma mem_discardedIds_attemptTrace (env : Env) (A k : Nat) :
    ∀ id ∈ discardedIds (attemptTrace env A k), id = env.u k := by
  intro id hid
  rw [discardedIds_attemptTrace] at hid
  by_cases hf : (env.outcomes k).isFailure = true
  · rw [if_pos hf] at hid
    exact (List.mem_replicate.mp hid).2
  · rw [if_neg hf] at hid
    exact absurd hid (List.not_mem_nil id)

lemma u_mem_discardedIds_attemptTrace (env : Env) (A k : Nat) (hA : 0 < A)
    (hf : (env.outcomes k).isFailure = true) :
    env.u k ∈ discardedIds (attemptTrace env A k) := by
  rw [discardedIds_attemptTrace, if_pos hf]
  exact List.mem_replicate.mpr ⟨by omega, rfl⟩

/-- Each attempt block records exactly one `allocate`, carrying the
identity of the attempt. -/
lemma allocIds_attemptTrace (env : Env) (A k : Nat) :
    allocIds (attemptTrace env A k) = [env.u k] := by
  cases h : env.outcomes k <;>
    simp [attemptTrace, h, allocIds, List.filterMap_append, List.filterMap_map,
      Function.comp_def]

lemma traceIds_collates (A : Nat) :
    traceIds ((List.range A).map Ev.collate) = [] := by
  simp [traceIds, List.filterMap_map, Function.comp_def]

lemma discardedIds_collates (A : Nat) :
    discardedIds ((List.range A).map Ev.collate) = [] := by
  simp [discardedIds, List.filterMap_map, Function.comp_def]

lemma allocIds_collates (A : Nat) :
    allocIds ((List.range A).map Ev.collate) = [] := by
  simp [allocIds, List.filterMap_map, Function.comp_def]

/-- Every identity recorded by a run starting at attempt `k` was minted
by a `uuid.uuid4()` call of position at least `k`. -/
lemma conductLoop_traceIds (env : Env) (A : Nat) :
    ∀ fuel k total tr, conductLoop env A fuel k total = some tr →
      ∀ id ∈ traceIds tr, ∃ m, k ≤ m ∧ id = env.u m := by
  intro fuel
  induction fuel with
  | zero =>
    intro k total tr h id hid
    simp only [conductLoop] at h
    by_cases hk : k = total
    · rw [if_pos hk] at h
      cases h
      rw [traceIds_collates] at hid
      exact absurd hid (List.not_mem_nil id)
    · rw [if_neg hk] at h
      cases h
  | succ fuel ih =>
    intro k total tr h id hid
    simp only [conductLoop] at h
    by_cases hk : k = total
    · rw [if_pos hk] at h
      cases h
      rw [traceIds_collates] at hid
      exact absurd hid (List.not_mem_nil id)
    · rw [if_neg hk] at h
      obtain ⟨tr', h', rfl⟩ := Option.map_eq_some'.mp h
      rw [traceIds, List.filterMap_append, List.mem_append] at hid
      rcases hid with hid | hid
      · exact ⟨k, Nat.le_refl k, traceIds_attemptTrace env A k id hid⟩
      · obtain ⟨m, hm, hid⟩ := ih (k + 1) _ tr' h' id hid
        exact ⟨m, by omega, hid⟩

/-- Collate runs exactly once per registered analyst, whatever the
failure pattern of the run. -/
lemma conductLoop_countCollate (env : Env) (A : Nat) :
    ∀ fuel k total tr, conductLoop env A fuel k total = some tr →
      ∀ i, countCollate tr i = if i < A then 1 else 0 := by
  intro fuel
  induction fuel with
  | zero =>
    intro k total tr h i
    simp only [conductLoop] at h
    by_cases hk : k = total
    · rw [if_pos hk] at h
      cases h
      simp [countCollate, List.countP_map, Function.comp_def, countP_beq_range]
    · rw [if_neg hk] at h
      cases h
  | succ fuel ih =>
    intro k total tr h i
    simp only [conductLoop] at h
    by_cases hk : k = total
    · rw [if_pos hk] at h
      cases h
      simp [countCollate, List.countP_map, Function.comp_def, countP_beq_range]
    · rw [if_neg hk] at h
      obtain ⟨tr', h', rfl⟩ := Option.map_eq_some'.mp h
      rw [countCollate_append, countCollate_attemptTrace, ih (k + 1) _ tr' h' i]
      simp

/-- Per attempt, `allocate` and `release` are called the same number of
times on that attempt's technique, and at most once. -/
lemma conductLoop_release (env : Env) (A : Nat) :
    ∀ fuel k total tr, conductLoop env A fuel k total = some tr →
      ∀ m, countAllocate tr m = countRelease tr m ∧ countRelease tr m ≤ 1 ∧
        (m < k → countRelease tr m = 0) := by
  intro fuel
  induction fuel with
  | zero =>
    intro k total tr h m
    simp only [conductLoop] at h
    by_cases hk : k = total
    · rw [if_pos hk] at h
      cases h
      refine ⟨?_, ?_, fun _ => ?_⟩ <;>
        simp [countAllocate, countRelease, List.countP_map, Function.comp_def,
          List.countP_false, Function.const]
    · rw [if_neg hk] at h
      cases h
  | succ fuel ih =>
    intro k total tr h m
    simp only [conductLoop] at h
    by_cases hk : k = total
    · rw [if_pos hk] at h
      cases h
      refine ⟨?_, ?_, fun _ => ?_⟩ <;>
        simp [countAllocate, countRelease, List.countP_map, Function.comp_def,
          List.countP_false, Function.const]
    · rw [if_neg hk] at h
      obtain ⟨tr', h', rfl⟩ := Option.map_eq_some'.mp h
      obtain ⟨ih1, ih2, ih3⟩ := ih (k + 1) _ tr' h' m
      rw [countAllocate_append, countRelease_append, countAllocate_attemptTrace,
        countRelease_attemptTrace, ih1]
      by_cases hm : k = m
      · subst hm
        rw [ih3 (by omega)]
        refine ⟨rfl, by simp, fun hc => absurd hc (by omega)⟩
      · rw [if_neg hm]
        refine ⟨rfl, by simpa using ih2, fun hc => ?_⟩
        have h0 := ih3 (by omega)
        simp [h0]

lemma isFailure_eq_false_iff (o : Outcome) : o.isFailure = false ↔ o = .success := by
  cases o <;> simp [Outcome.isFailure]

/-- Retained `analyse` calls in one attempt block: none if the identity
of the attempt is in the discard list `ds`, otherwise all the block's
`analyse` calls. -/
lemma countRetainedIn_attemptTrace (ds : List Nat) (env : Env) (A k i : Nat) :
    countRetainedIn ds (attemptTrace env A k) i =
      if ds.contains (env.u k) = true then 0
      else countAnalyse (attemptTrace env A k) i := by
  by_cases hc : ds.contains (env.u k) = true
  · rw [if_pos hc]
    have hmem : env.u k ∈ ds := by
      rw [contains_eq_decide_mem] at hc
      exact of_decide_eq_true hc
    cases h : env.outcomes k <;>
      simp [attemptTrace, h, countRetainedIn, List.countP_append, List.countP_cons,
        List.countP_map, Function.comp_def, hmem, List.countP_false, Function.const]
  · rw [if_neg hc]
    have hnmem : env.u k ∉ ds := by
      intro hx
      exact hc (by rw [contains_eq_decide_mem]; simp [hx])
    cases h : env.outcomes k <;>
      simp [attemptTrace, h, countRetainedIn, countAnalyse, List.countP_append,
        List.countP_cons, List.countP_map, Function.comp_def, hnmem, List.countP_false,
        Function.const]

/-- `discard` calls in one attempt block: exactly one per analyst, for
the identity of the attempt, exactly when the attempt fails. -/
lemma countDiscard_attemptTrace (env : Env) (A k i id : Nat) :
    countDiscard (attemptTrace env A k) i id =
      if (env.outcomes k).isFailure = true ∧ i < A ∧ env.u k = id then 1 else 0 := by
  by_cases hid : env.u k = id
  · subst hid
    cases h : env.outcomes k <;>
      simp [attemptTrace, h, countDiscard, Outcome.isFailure, List.countP_append,
        List.countP_cons, List.countP_map, Function.comp_def, List.countP_false,
        Function.const, countP_beq_range]
  · cases h : env.outcomes k <;>
      simp [attemptTrace, h, countDiscard, Outcome.isFailure, List.countP_append,
        List.countP_cons, List.countP_map, Function.comp_def, List.countP_false,
        Function.const, hid]

/-- Every analyst below the analyst count receives, over a terminating
run from queue position `k` with queue length `total`, exactly one
retained `analyse` call per pending identity: replacement identities
exactly compensate discarded ones. -/
lemma conductLoop_retained (env : Env) (A : Nat) (hu : Function.Injective env.u) :
    ∀ fuel k total tr, conductLoop env A fuel k total = some tr →
      ∀ i, i < A → countRetainedIn (discardedIds tr) tr i = total - k := by
  intro fuel
  induction fuel with
  | zero =>
    intro k total tr h i hi
    simp only [conductLoop] at h
    by_cases hk : k = total
    · rw [if_pos hk] at h
      cases h
      subst hk
      simp [countRetainedIn, List.countP_map, Function.comp_def, List.countP_false,
        Function.const]
    · rw [if_neg hk] at h
      cases h
  | succ fuel ih =>
    intro k total tr h i hi
    simp only [conductLoop] at h
    by_cases hk : k = total
    · rw [if_pos hk] at h
      cases h
      subst hk
      simp [countRetainedIn, List.countP_map, Function.comp_def, List.countP_false,
        Function.const]
    · rw [if_neg hk] at h
      obtain ⟨tr', h', rfl⟩ := Option.map_eq_some'.mp h
      have hk_le := conductLoop_le env A fuel (k + 1) _ tr' h'
      have hrest := conductLoop_traceIds env A fuel (k + 1) _ tr' h'
      have huk_notin : env.u k ∉ discardedIds tr' := by
        intro hmem
        obtain ⟨m, hm, heq⟩ := hrest _ (mem_traceIds_of_discarded hmem)
        have := hu heq
        omega
      rw [discardedIds_append, countRetainedIn_append]
      have hswap : countRetainedIn (discardedIds (attemptTrace env A k) ++ discardedIds tr') tr' i
          = countRetainedIn (discardedIds tr') tr' i := by
        rw [countRetainedIn, countRetainedIn]
        refine List.countP_congr ?_
        intro e hin
        cases e with
        | analyse j id =>
          have hmem := mem_traceIds_of_analyse hin
          obtain ⟨m, hm, rfl⟩ := hrest _ hmem
          have hmm : env.u m ∈ discardedIds (attemptTrace env A k) ++ discardedIds tr' ↔
              env.u m ∈ discardedIds tr' := by
            rw [List.mem_append]
            constructor
            · rintro (hx | hx)
              · exfalso
                have h1 := mem_discardedIds_attemptTrace env A k _ hx
                have h2 := hu h1
                omega
              · exact hx
            · intro hx
              exact Or.inr hx
          simp [contains_eq_decide_mem, hmm]
        | allocate m id => simp
        | sample m => simp
        | discard j id => simp
        | release m => simp
        | collate j => simp
      rw [hswap, ih (k + 1) _ tr' h' i hi, countRetainedIn_attemptTrace]
      by_cases hf : (env.outcomes k).isFailure = true
      · have hmemuk : env.u k ∈ discardedIds (attemptTrace env A k) ++ discardedIds tr' :=
          List.mem_append.mpr (Or.inl (u_mem_discardedIds_attemptTrace env A k (by omega) hf))
        have hctrue : (discardedIds (attemptTrace env A k) ++ discardedIds tr').contains (env.u k) = true := by
          rw [contains_eq_decide_mem]
          simp [hmemuk]
        rw [if_pos hctrue]
        have htot1 : (if (env.outcomes k).isFailure = true then total + 1 else total) = total + 1 := by
          rw [hf]
          simp
        rw [htot1] at hk_le ⊢
        omega
      · have hff : (env.outcomes k).isFailure = false := by
          cases hx : (env.outcomes k).isFailure
          · rfl
          · exact absurd hx hf
        have hsucc : env.outcomes k = .success := (isFailure_eq_false_iff _).mp hff
        have hblock_nil : discardedIds (attemptTrace env A k) = [] := by
          rw [discardedIds_attemptTrace, if_neg hf]
        have hcfalse : ¬(discardedIds (attemptTrace env A k) ++ discardedIds tr').contains (env.u k) = true := by
          rw [contains_eq_decide_mem]
          simp [hblock_nil, huk_notin]
        rw [if_neg hcfalse]
        rw [countAnalyse_attemptTrace, hsucc]
        have htot0 : (if (env.outcomes k).isFailure = true then total + 1 else total) = total := by
          rw [hff]
          simp
        rw [htot0] at hk_le
        simp [Outcome.isFailure, hi]
        omega

/-- `discard` bookkeeping over a whole run: each analyst receives
exactly one `discard` call for every discarded identity, and none for
any other identity. -/
lemma conductLoop_discard (env : Env) (A : Nat) (hu : Function.Injective env.u) :
    ∀ fuel k total tr, conductLoop env A fuel k total = some tr →
      ∀ i, i < A → ∀ id, countDiscard tr i id = if id ∈ discardedIds tr then 1 else 0 := by
  intro fuel
  induction fuel with
  | zero =>
    intro k total tr h i hi id
    simp only [conductLoop] at h
    by_cases hk : k = total
    · rw [if_pos hk] at h
      cases h
      rw [discardedIds_collates]
      simp [countDiscard, List.countP_map, Function.comp_def, List.countP_false,
        Function.const]
    · rw [if_neg hk] at h
      cases h
  | succ fuel ih =>
    intro k total tr h i hi id
    simp only [conductLoop] at h
    by_cases hk : k = total
    · rw [if_pos hk] at h
      cases h
      rw [discardedIds_collates]
      simp [countDiscard, List.countP_map, Function.comp_def, List.countP_false,
        Function.const]
    · rw [if_neg hk] at h
      obtain ⟨tr', h', rfl⟩ := Option.map_eq_some'.mp h
      have hrest := conductLoop_traceIds env A fuel (k + 1) _ tr' h'
      have huk_notin : env.u k ∉ discardedIds tr' := by
        intro hmem
        obtain ⟨m, hm, heq⟩ := hrest _ (mem_traceIds_of_discarded hmem)
        have := hu heq
        omega
      rw [countDiscard_append, countDiscard_attemptTrace, discardedIds_append,
        ih (k + 1) _ tr' h' i hi id]
      by_cases hid : env.u k = id
      · subst hid
        rw [if_neg huk_notin]
        by_cases hf : (env.outcomes k).isFailure = true
        · rw [if_pos ⟨hf, hi, rfl⟩]
          have hmemuk : env.u k ∈ discardedIds (attemptTrace env A k) ++ discardedIds tr' :=
            List.mem_append.mpr (Or.inl (u_mem_discardedIds_attemptTrace env A k (by omega) hf))
          rw [if_pos hmemuk]
        · have hblock_nil : discardedIds (attemptTrace env A k) = [] := by
            rw [discardedIds_attemptTrace, if_neg hf]
          have hnotmem : env.u k ∉ discardedIds (attemptTrace env A k) ++ discardedIds tr' := by
            rw [hblock_nil]
            simpa using huk_notin
          rw [if_neg (fun hc => hf hc.1), if_neg hnotmem]
      · rw [if_neg (fun hc => hid hc.2.2)]
        have hmem_iff : id ∈ discardedIds (attemptTrace env A k) ++ discardedIds tr' ↔
            id ∈ discardedIds tr' := by
          rw [List.mem_append]
          constructor
          · rintro (hx | hx)
            · exact absurd (mem_discardedIds_attemptTrace env A k _ hx).symm hid
            · exact hx
          · intro hx
            exact Or.inr hx
        rw [if_congr hmem_iff rfl rfl]
        omega

/-- Exact `analyse` accounting when every attempt succeeds. -/
lemma conductLoop_success_analyse (env : Env) (A : Nat)
    (hs : ∀ m, env.outcomes m = .success) :
    ∀ fuel k total tr, conductLoop env A fuel k total = some tr →
      ∀ i, i < A → countAnalyse tr i = total - k := by
  intro fuel
  induction fuel with
  | zero =>
    intro k total tr h i hi
    simp only [conductLoop] at h
    by_cases hk : k = total
    · rw [if_pos hk] at h
      cases h
      subst hk
      simp [countAnalyse, List.countP_map, Function.comp_def, List.countP_false,
        Function.const]
    · rw [if_neg hk] at h
      cases h
  | succ fuel ih =>
    intro k total tr h i hi
    simp only [conductLoop] at h
    by_cases hk : k = total
    · rw [if_pos hk] at h
      cases h
      subst hk
      simp [countAnalyse, List.countP_map, Function.comp_def, List.countP_false,
        Function.const]
    · rw [if_neg hk] at h
      obtain ⟨tr', h', rfl⟩ := Option.map_eq_some'.mp h
      have hnof : (env.outcomes k).isFailure = false := by
        rw [hs k]
        rfl
      rw [hnof] at h'
      simp only [Bool.false_eq_true, if_false] at h'
      have hk_le := conductLoop_le env A fuel (k + 1) total tr' h'
      rw [countAnalyse_append, countAnalyse_attemptTrace, hs k,
        ih (k + 1) total tr' h' i hi]
      simp only [hi, if_true]
      omega

/-- The identities of the attempts of a run, in order, are an initial
segment of the `uuid.uuid4()` stream starting at the first attempt. -/
lemma conductLoop_allocIds (env : Env) (A : Nat) :
    ∀ fuel k total tr, conductLoop env A fuel k total = some tr →
      ∃ n, allocIds tr = (List.range' k n).map env.u := by
  intro fuel
  induction fuel with
  | zero =>
    intro k total tr h
    simp only [conductLoop] at h
    by_cases hk : k = total
    · rw [if_pos hk] at h
      cases h
      exact ⟨0, by simp [allocIds_collates]⟩
    · rw [if_neg hk] at h
      cases h
  | succ fuel ih =>
    intro k total tr h
    simp only [conductLoop] at h
    by_cases hk : k = total
    · rw [if_pos hk] at h
      cases h
      exact ⟨0, by simp [allocIds_collates]⟩
    · rw [if_neg hk] at h
      obtain ⟨tr', h', rfl⟩ := Option.map_eq_some'.mp h
      obtain ⟨n, hn⟩ := ih (k + 1) _ tr' h'
      refine ⟨n + 1, ?_⟩
      rw [allocIds_append, allocIds_attemptTrace, hn, List.range'_succ]
      simp

/-- C1 (amended): for every N ≥ 0, a terminating run of `conduct` with
an injective `uuid.uuid4()` stream gives every registered analyst
exactly N `analyse` calls whose identity is never discarded; `collate`
runs exactly once per analyst; when no attempt fails every analyst
receives exactly N `analyse` calls in total; and for every discarded
(failed) identity every analyst receives exactly one `discard` call. -/
theorem conduct_analyse_accounting (env : Env) (A N fuel : Nat) (tr : List Ev)
    (h : conduct env A N fuel = some tr) (hu : Function.Injective env.u) :
    ∀ i, i < A →
      countRetained tr i = N ∧
      countCollate tr i = 1 ∧
      ((∀ m, env.outcomes m = .success) → countAnalyse tr i = N) ∧
      (∀ id ∈ discardedIds tr, countDiscard tr i id = 1) := by
  intro i hi
  refine ⟨?_, ?_, ?_, ?_⟩
  · have hr := conductLoop_retained env A hu fuel 0 N tr h i hi
    simpa [countRetained] using hr
  · have hc := conductLoop_countCollate env A fuel 0 N tr h i
    rw [hc, if_pos hi]
  · intro hs
    have ha := conductLoop_success_analyse env A hs fuel 0 N tr h i hi
    simpa using ha
  · intro id hid
    have hd := conductLoop_discard env A hu fuel 0 N tr h i hi id
    rw [hd, if_pos hid]

/-- Run of `conduct` in which attempt 0 raises inside the `analyse`
call of analyst 0 and every later attempt succeeds (a single, bounded
transient failure); `uuid.uuid4()` is modelled as minting 0, 1, 2, …. -/
def envC1 : Env :=
  ⟨fun k => if k = 0 then Outcome.failAnalyse 0 else Outcome.success, fun k => k⟩

/-- The trace of `conduct envC1` with one analyst, one requested
execution. -/
def trC1 : List Ev :=
  [Ev.allocate 0 0, Ev.sample 0, Ev.analyse 0 0, Ev.discard 0 0, Ev.release 0,
   Ev.allocate 1 1, Ev.sample 1, Ev.analyse 0 1, Ev.release 1, Ev.collate 0]

/-- C1 is false as stated: with N = 1 requested execution, one analyst
and a single bounded failure (raised by the analyst's own `analyse`
call on attempt 0), the analyst receives 2 `analyse` calls, not
exactly N = 1 — the call that raised, whose identity is then
discarded, still happened. -/
theorem conduct_analyse_calls_exceed_N :
    conduct envC1 1 1 10 = some trC1 ∧
      countAnalyse trC1 0 = 2 ∧ countAnalyse trC1 0 ≠ 1 := by
  decide

/-- Run of `conduct` in which attempt 0 raises inside
`technique.sample()` and every later attempt succeeds. -/
def envW2 : Env :=
  ⟨fun k => if k = 0 then Outcome.failSample else Outcome.success, fun k => k⟩

/-- The trace of `conduct envW2` with one analyst, one requested
execution. -/
def trW2 : List Ev :=
  [Ev.allocate 0 0, Ev.sample 0, Ev.discard 0 0, Ev.release 0,
   Ev.allocate 1 1, Ev.sample 1, Ev.analyse 0 1, Ev.release 1, Ev.collate 0]

/-- Witness for the amended C1 on a concrete run with one failure. -/
theorem conduct_analyse_accounting_witness :
    countRetained trW2 0 = 1 ∧ countCollate trW2 0 = 1 :=
  ⟨(conduct_analyse_accounting envW2 1 1 10 trW2 (by decide)
      (fun a b hab => hab) 0 (by decide)).1,
   (conduct_analyse_accounting envW2 1 1 10 trW2 (by decide)
      (fun a b hab => hab) 0 (by decide)).2.1⟩

/-- C2: in every terminating run of `conduct`, the technique
constructed for attempt `k` receives exactly as many `release()` calls
as `allocate()` calls, and at most one of each — the `finally` clause
runs `release()` exactly once per attempt whatever raises. -/
theorem conduct_release_once_per_allocate (env : Env) (A N fuel : Nat) (tr : List Ev)
    (h : conduct env A N fuel = some tr) :
    ∀ k, countAllocate tr k = countRelease tr k ∧ countRelease tr k ≤ 1 := by
  intro k
  obtain ⟨h1, h2, -⟩ := conductLoop_release env A fuel 0 N tr h k
  exact ⟨h1, h2⟩

/-- Witness for C2 on a concrete run whose attempt 0 raises inside
`sample()`: that attempt's technique is still released exactly once. -/
theorem conduct_release_once_per_allocate_witness :
    countAllocate trW2 0 = countRelease trW2 0 ∧ countRelease trW2 0 ≤ 1 :=
  conduct_release_once_per_allocate envW2 1 1 10 trW2 (by decide) 0

/-- C9 (amended): the execution identities of a terminating run are
exactly an initial segment of the `uuid.uuid4()` stream, minted in
queue order (the N seeds first, then one replacement per failure), and
they are pairwise distinct provided the stream never repeats a value.
Monotonicity is not guaranteed (see the counterexample). -/
theorem conduct_identities_fresh (env : Env) (A N fuel : Nat) (tr : List Ev)
    (h : conduct env A N fuel = some tr) (hu : Function.Injective env.u) :
    ∃ n, allocIds tr = (List.range n).map env.u ∧ (allocIds tr).Nodup := by
  obtain ⟨n, hn⟩ := conductLoop_allocIds env A fuel 0 N tr h
  refine ⟨n, ?_, ?_⟩
  · rw [hn, List.range_eq_range']
  · rw [hn]
    exact List.Nodup.map hu (List.nodup_range' 0 n)

/-- Witness for the amended C9: on a concrete two-execution run the
attempt identities are distinct. -/
theorem conduct_identities_fresh_witness : (allocIds trW2).Nodup := by
  obtain ⟨n, -, h2⟩ :=
    conduct_identities_fresh envW2 1 1 10 trW2 (by decide) (fun a b hab => hab)
  exact h2

/-- Run of `conduct` in which every attempt succeeds but the
`uuid.uuid4()` stream happens to return 5 and then 3 — a possible draw,
since `uuid.uuid4()` is uniformly random and guarantees no ordering. -/
def envC9 : Env :=
  ⟨fun _ => Outcome.success, fun k => if k = 0 then 5 else 3⟩

/-- The trace of `conduct envC9` with one analyst, two requested
executions. -/
def trC9 : List Ev :=
  [Ev.allocate 0 5, Ev.sample 0, Ev.analyse 0 5, Ev.release 0,
   Ev.allocate 1 3, Ev.sample 1, Ev.analyse 0 3, Ev.release 1, Ev.collate 0]

/-- C9 is false as stated on monotonicity: the identities minted by
`conduct` are `uuid.uuid4()` values, which carry no ordering, so the
minted sequence need not be increasing: here it is 5 followed by 3. -/
theorem conduct_identities_not_monotonic :
    conduct envC9 1 2 10 = some trC9 ∧ allocIds trC9 = [5, 3] ∧
      ¬List.Chain' Nat.lt (allocIds trC9) := by
  refine ⟨by decide, by decide, fun hchain => ?_⟩
  rw [show allocIds trC9 = [5, 3] from by decide] at hchain
  have h53 : (5 : Nat) < 3 := (List.chain'_cons.mp hchain).1
  omega

end Experiment

namespace Interface

/-- interface.Parameter: a descriptor that exposes one entry of the
owning instance's `parameters` dictionary (interface.py lines 5-25). -/
structure Parameter where
  name : String
deriving DecidableEq, Repr

/-- Exceptions raised by the descriptor protocol embedding. -/
inductive AttrException where
  | attributeError (message : String)
deriving DecidableEq, Repr

/-- The state of a component instance (Technique, Analyst or Behaviour)
as seen by the `Parameter` and `Slot` descriptors: the `parameters`
mapping supplied at construction and the `output` slot store.  `V` is
the type of parameter and slot values. -/
structure ComponentState (V : Type) where
  parameters : List (String × V)
  output : List (String × V)
deriving DecidableEq, Repr

/-- `Parameter.__get__` (interface.py lines 19-22): reads
`instance.parameters[self.name]`; `none` models the KeyError on a
missing key. -/
def Parameter.get {V : Type} (p : Parameter) (inst : ComponentState V) : Option V :=
  List.lookup p.name inst.parameters

/-- `Parameter.__set__` (interface.py lines 24-25): unconditionally
raises `AttributeError("Parameter dictionary is read-only")` before
touching any state; the instance is returned alongside the outcome to
make the frame condition expressible. -/
def Parameter.set {V : Type} (p : Parameter) (inst : ComponentState V) (v : V) :
    Except AttrException Unit × ComponentState V :=
  (Except.error (AttrException.attributeError "Parameter dictionary is read-only"), inst)

/-- interface.Slot: a descriptor over the `output` store
(interface.py lines 27-47); its `__set__` does mutate, which is what
distinguishes it from `Parameter`. -/
structure Slot where
  name : String
deriving DecidableEq, Repr

/-- `Slot.__set__` (interface.py lines 46-47): writes
`instance.output[self.name] = value`. -/
def Slot.set {V : Type} (s : Slot) (inst : ComponentState V) (v : V) :
    Except AttrException Unit × ComponentState V :=
  (Except.ok (), { inst with output := (s.name, v) :: inst.output.filter (fun kv => kv.1 ≠ s.name) })

/-- C10: assigning to any Parameter-declared attribute of a component
instance raises AttributeError and leaves the instance — in particular
its `parameters` mapping — entirely unchanged, for every descriptor,
every instance and every assigned value. -/
theorem parameter_set_raises_and_preserves {V : Type} (p : Parameter)
    (inst : ComponentState V) (v : V) :
    (Parameter.set p inst v).1 =
      Except.error (AttrException.attributeError "Parameter dictionary is read-only") ∧
    (Parameter.set p inst v).2 = inst ∧
    ((Parameter.set p inst v).2).parameters = inst.parameters :=
  ⟨rfl, rfl, rfl⟩

end Interface

namespace Volume

/-- Environment of the volume manager (volume.py): the basenames
globbed from `/dev/nbd?` (the fixed device pool), the `nbd[0-9]`
identifiers found live in `/proc/partitions` (the attached set), the
element Python's `set.pop()` yields on a given collection (`none`
models the KeyError on an empty set), and whether the `qemu-nbd -c`
subprocess exits successfully. -/
structure DeviceEnv where
  devPool : List String
  procPartitions : List String
  choice : List String → Option String
  nbdOk : Bool

/-- `volume.device_nodes` (volume.py lines 90-94). -/
def device_nodes (env : DeviceEnv) : List String := env.devPool

/-- `volume.attached_device_nodes` (volume.py lines 96-100). -/
def attached_device_nodes (env : DeviceEnv) : List String := env.procPartitions

/-- `volume.available_device_node` (volume.py lines 102-107): the set
difference of the pool and the attached identifiers, then `set.pop()`. -/
def available_device_node (env : DeviceEnv) : Option String :=
  env.choice ((device_nodes env).filter
    (fun d => !((attached_device_nodes env).contains d)))

/-- `volume.attach` (volume.py lines 16-33): select an available node,
bind the image to `/dev/<node>` with `qemu-nbd -n -c`, return the
device path; `none` models a raised exception (no free node, or a
non-zero qemu-nbd exit). -/
def attach (env : DeviceEnv) (filename : String) : Option String :=
  match available_device_node env with
  | none => none
  | some device => if env.nbdOk then some ("/dev/" ++ device) else none

/-- `volume.partition` (volume.py lines 68-76): pure naming
composition `"{}p{}".format(device, number)`. -/
def partition (device : String) (number : Nat) : String :=
  device ++ "p" ++ toString number

lemma head?_mem {α : Type} (l : List α) (x : α) (h : l.head? = some x) : x ∈ l := by
  cases l with
  | nil => cases h
  | cons a t =>
    simp [List.head?] at h
    subst h
    exact List.mem_cons_self a t

lemma head?_isSome {α : Type} (l : List α) (h : l ≠ []) : l.head?.isSome = true := by
  cases l with
  | nil => exact absurd rfl h
  | cons a t => rfl

/-- C8: if some identifier of the device pool is absent from the
kernel-reported attached set and `qemu-nbd` succeeds, `attach` returns
a device handle built from a pool identifier that is not in the
attached set at selection time — whatever element `set.pop()` happens
to yield. -/
theorem attach_returns_unattached (env : DeviceEnv) (filename : String)
    (hchoice_mem : ∀ l x, env.choice l = some x → x ∈ l)
    (hchoice_some : ∀ l, l ≠ [] → (env.choice l).isSome = true)
    (hnbd : env.nbdOk = true)
    (hpool : ∃ d, d ∈ env.devPool ∧ d ∉ env.procPartitions) :
    ∃ d, attach env filename = some ("/dev/" ++ d) ∧
      d ∈ env.devPool ∧ d ∉ env.procPartitions := by
  obtain ⟨d0, hd0p, hd0a⟩ := hpool
  have hl_ne : (device_nodes env).filter
      (fun d => !((attached_device_nodes env).contains d)) ≠ [] := by
    intro hnil
    have hm : d0 ∈ (device_nodes env).filter
        (fun d => !((attached_device_nodes env).contains d)) := by
      refine List.mem_filter.mpr ⟨hd0p, ?_⟩
      rw [Experiment.contains_eq_decide_mem]
      simp [attached_device_nodes, hd0a]
    rw [hnil] at hm
    exact absurd hm (List.not_mem_nil d0)
  have hsome := hchoice_some _ hl_ne
  obtain ⟨x, hx⟩ := Option.isSome_iff_exists.mp hsome
  have hx_mem := hchoice_mem _ x hx
  have hx_f := List.mem_filter.mp hx_mem
  refine ⟨x, ?_, hx_f.1, ?_⟩
  · rw [attach, available_device_node, hx]
    simp [hnbd]
  · intro hmem
    have hb := hx_f.2
    rw [Experiment.contains_eq_decide_mem] at hb
    simp [attached_device_nodes] at hb
    exact hb hmem

/-- Concrete device environment: pool {nbd0, nbd1}, nbd0 attached,
`set.pop` modelled as taking the head of the difference. -/
def envW8 : DeviceEnv :=
  ⟨["nbd0", "nbd1"], ["nbd0"], List.head?, true⟩

/-- Witness for C8: on the concrete pool the selected handle is an
unattached pool identifier. -/
theorem attach_returns_unattached_witness :
    ∃ d, attach envW8 "image.qcow2" = some ("/dev/" ++ d) ∧
      d ∈ envW8.devPool ∧ d ∉ envW8.procPartitions :=
  attach_returns_unattached envW8 "image.qcow2"
    (fun l x h => head?_mem l x h)
    (fun l h => head?_isSome l h)
    rfl
    ⟨"nbd1", by decide, by decide⟩

end Volume

namespace Vector

/-- Environment of one `transfer_acquired_image` run
(technique/behaviour/vector.py lines 70-88): the result of each
external call, in program order.  `none` / `false` means the call
raises (a `CalledProcessError` from the underlying tool, an `IOError`
from the copy); `waitReturns = false` means `wait_for_partition` polls
forever. -/
structure XferEnv where
  attachResult : Option String
  waitReturns : Bool
  mountResult : Option String
  copyOk : Bool
  unmountOk : Bool
  detachOk : Bool
deriving DecidableEq, Repr

/-- The volume-manager calls made by `transfer_acquired_image`. -/
inductive VolCall where
  | attachCall (filename : String)
  | waitCall (part : String)
  | mountCall (part : String)
  | copyCall (src dst : String)
  | unmountCall (path : String)
  | detachCall (device : String)
deriving DecidableEq, Repr

/-- How one `transfer_acquired_image` run ends. -/
inductive XferOutcome where
  | completed
  | raised
  | hung
deriving DecidableEq, Repr

/-- `FixedDriveAcquisitionVector.transfer_acquired_image`
(vector.py lines 70-88): `volume.attach`, `volume.partition`,
`volume.wait_for_partition`, `volume.mount`, `shutil.copy`,
`volume.unmount`, `volume.detach`, strictly in sequence and with no
try/finally — the first exception propagates and the remaining calls
are never made.  The result records every call actually begun (a call
that raises is still recorded) and the outcome. -/
def transfer_acquired_image (env : XferEnv) (vector_filename : String)
    (vector_partition : Nat) (vector_image : String) (image_acquired : String) :
    List VolCall × XferOutcome :=
  match env.attachResult with
  | none => ([VolCall.attachCall vector_filename], XferOutcome.raised)
  | some device =>
    let part := Volume.partition device vector_partition
    if !env.waitReturns then
      ([VolCall.attachCall vector_filename, VolCall.waitCall part], XferOutcome.hung)
    else
      match env.mountResult with
      | none =>
          ([VolCall.attachCall vector_filename, VolCall.waitCall part,
            VolCall.mountCall part], XferOutcome.raised)
      | some path =>
        let src := path ++ "/" ++ vector_image
        if !env.copyOk then
          ([VolCall.attachCall vector_filename, VolCall.waitCall part,
            VolCall.mountCall part, VolCall.copyCall src image_acquired],
           XferOutcome.raised)
        else if !env.unmountOk then
          ([VolCall.attachCall vector_filename, VolCall.waitCall part,
            VolCall.mountCall part, VolCall.copyCall src image_acquired,
            VolCall.unmountCall path], XferOutcome.raised)
        else if !env.detachOk then
          ([VolCall.attachCall vector_filename, VolCall.waitCall part,
            VolCall.mountCall part, VolCall.copyCall src image_acquired,
            VolCall.unmountCall path, VolCall.detachCall device], XferOutcome.raised)
        else
          ([VolCall.attachCall vector_filename, VolCall.waitCall part,
            VolCall.mountCall part, VolCall.copyCall src image_acquired,
            VolCall.unmountCall path, VolCall.detachCall device],
           XferOutcome.completed)

/-- Number of `volume.attach` invocations in a call list. -/
def countAttachCalls (tr : List VolCall) : Nat :=
  tr.countP fun c => match c with
    | VolCall.attachCall _ => true
    | _ => false

/-- Number of `volume.detach` invocations in a call list. -/
def countDetachCalls (tr : List VolCall) : Nat :=
  tr.countP fun c => match c with
    | VolCall.detachCall _ => true
    | _ => false

/-- Number of `volume.detach` invocations on a given device. -/
def countDetachOn (tr : List VolCall) (device : String) : Nat :=
  tr.countP fun c => match c with
    | VolCall.detachCall d => d == device
    | _ => false

/-- Environment in which `volume.attach` succeeds on /dev/nbd0, the
partition appears, and `volume.mount` raises. -/
def envC3 : XferEnv := ⟨some "/dev/nbd0", true, none, true, true, true⟩

/-- C3 is false as stated: when `mount` raises after a successful
`attach`, `transfer_acquired_image` propagates the exception without
ever invoking `detach` — the attached device leaks.  The call list of
the concrete run is attach, wait, mount (which raised); it contains one
successful attach and zero detach calls, not exactly one. -/
theorem mount_failure_leaks_attached_device :
    transfer_acquired_image envC3 "vector.qcow2" 1 "memory.img" "/tmp/acquired.memory" =
      ([VolCall.attachCall "vector.qcow2", VolCall.waitCall "/dev/nbd0p1",
        VolCall.mountCall "/dev/nbd0p1"], XferOutcome.raised) ∧
    countDetachCalls
      [VolCall.attachCall "vector.qcow2", VolCall.waitCall "/dev/nbd0p1",
       VolCall.mountCall "/dev/nbd0p1"] = 0 ∧
    countDetachCalls
      [VolCall.attachCall "vector.qcow2", VolCall.waitCall "/dev/nbd0p1",
       VolCall.mountCall "/dev/nbd0p1"] ≠ 1 := by
  decide

/-- C3 (amended): in `transfer_acquired_image`, a successful `attach`
is paired with exactly one `detach` only on the fully successful path;
if `mount` raises after a successful `attach`, `detach` is not invoked
at all and the device remains attached, because the function has no
try/finally around the attach/detach bracket. -/
theorem transfer_attach_detach_pairing (env : XferEnv)
    (fn : String) (pn : Nat) (im acq : String) (device : String)
    (hdev : env.attachResult = some device) :
    (env.waitReturns = true → env.mountResult = none →
      countAttachCalls (transfer_acquired_image env fn pn im acq).1 = 1 ∧
      countDetachCalls (transfer_acquired_image env fn pn im acq).1 = 0 ∧
      (transfer_acquired_image env fn pn im acq).2 = XferOutcome.raised) ∧
    (∀ path, env.waitReturns = true → env.mountResult = some path →
      env.copyOk = true → env.unmountOk = true → env.detachOk = true →
      countAttachCalls (transfer_acquired_image env fn pn im acq).1 = 1 ∧
      countDetachOn (transfer_acquired_image env fn pn im acq).1 device = 1 ∧
      (transfer_acquired_image env fn pn im acq).2 = XferOutcome.completed) := by
  constructor
  · intro hw hm
    simp [transfer_acquired_image, hdev, hw, hm, countAttachCalls, countDetachCalls,
      List.countP_cons]
  · intro path hw hm hc hu hd
    simp [transfer_acquired_image, hdev, hw, hm, hc, hu, hd, countAttachCalls,
      countDetachOn, List.countP_cons]

/-- Environment in which every external call of the transfer
succeeds. -/
def envW3 : XferEnv := ⟨some "/dev/nbd0", true, some "/mnt/x", true, true, true⟩

/-- Witness for the amended C3: on the fully successful concrete run
the attach is paired with exactly one detach of the attached device. -/
theorem transfer_attach_detach_pairing_witness :
    countAttachCalls
        (transfer_acquired_image envW3 "vector.qcow2" 1 "memory.img" "/tmp/a").1 = 1 ∧
    countDetachOn
        (transfer_acquired_image envW3 "vector.qcow2" 1 "memory.img" "/tmp/a").1
        "/dev/nbd0" = 1 ∧
    (transfer_acquired_image envW3 "vector.qcow2" 1 "memory.img" "/tmp/a").2 =
      XferOutcome.completed :=
  (transfer_attach_detach_pairing envW3 "vector.qcow2" 1 "memory.img" "/tmp/a"
    "/dev/nbd0" rfl).2 "/mnt/x" rfl rfl rfl rfl rfl

end Vector

namespace Technique

/-- The hook names of the composed techniques, in spec spelling; the
Python methods are `attach_toolkit`, `detach_toolkit`, `attach_vector`,
`acquire`, `detach_vector`, `transfer_acquired_image` and `idle`. -/
inductive Hook where
  | attachToolkit
  | detachToolkit
  | attachVector
  | acquire
  | detachVector
  | transferAcquiredImage
  | idle
deriving DecidableEq, Repr, Fintype

/-- The classes that can appear, hook-relevantly, in the
method-resolution order of a dynamically composed technique class. -/
inductive Provider where
  | executeIntervention
  | monitorIntervention
  | opticalToolkit
  | fixedDriveVector
  | acquisitionBase
  | fixedDelay
  | randomDelay
  | controlBase
deriving DecidableEq, Repr, Fintype

/-- Which class body defines a real implementation of which hook, read
off the source: `ExecuteInterventionBehaviour.acquire` and
`MonitorInterventionBehaviour.acquire` (intervention.py),
`OpticalAcquisitionToolkit.attach_toolkit`/`detach_toolkit`
(toolkit.py), `FixedDriveAcquisitionVector.attach_vector`/
`detach_vector`/`transfer_acquired_image` (vector.py),
`AcquisitionTechnique.acquire` whose body is `pass`
(acquisition.py line 137-146), and `FixedDelayBehaviour.idle`/
`RandomDelayBehaviour.idle` (delay.py).  The abstract stubs that only
raise NotImplementedError (`AcquisitionTechnique.attach_toolkit` etc.,
`ControlTechnique.idle`) are not implementations. -/
def implementsHook : Provider → Hook → Bool
  | .executeIntervention, .acquire => true
  | .monitorIntervention, .acquire => true
  | .opticalToolkit, .attachToolkit => true
  | .opticalToolkit, .detachToolkit => true
  | .fixedDriveVector, .attachVector => true
  | .fixedDriveVector, .detachVector => true
  | .fixedDriveVector, .transferAcquiredImage => true
  | .acquisitionBase, .acquire => true
  | .fixedDelay, .idle => true
  | .randomDelay, .idle => true
  | _, _ => false

/-- A dynamically composed technique, abstracted to its hook-relevant
method-resolution order: for `type("DynamicAcquisitionTechnique",
(ivb, tkb, vcb, AcquisitionTechnique), {})` the C3 linearisation of
these single-inheritance mixins visits exactly `ivb`, `tkb`, `vcb`,
`AcquisitionTechnique` in that order (interface.Behaviour and
interface.Technique contribute none of the hooks above). -/
structure ComposedTechnique where
  providers : List Provider
deriving DecidableEq, Repr

/-- Python attribute lookup along the method-resolution order: the
first class in the order with a real implementation of the hook
provides it. -/
def resolveHook (t : ComposedTechnique) (h : Hook) : Option Provider :=
  t.providers.find? (fun p => implementsHook p h)

/-- The raised `RuntimeError("Requested behaviour could not be
composed")`, named `CompositionError` by the spec's taxonomy. -/
inductive CompositionException where
  | compositionError
deriving DecidableEq, Repr

/-- acquisition.py line 16. -/
def TOOLKIT_BEHAVIOUR_KEY : String := "technique.behaviour.toolkit"

/-- acquisition.py line 17. -/
def VECTOR_BEHAVIOUR_KEY : String := "technique.behaviour.vector"

/-- acquisition.py line 18. -/
def INTERVENTION_BEHAVIOUR_KEY : String := "technique.behaviour.intervention"

/-- control.py line 14. -/
def DELAY_BEHAVIOUR_KEY : String := "technique.behaviour.delay"

/-- acquisition.py lines 189-191. -/
def TOOLKIT_BEHAVIOURS : List (String × Provider) :=
  [("optical", Provider.opticalToolkit)]

/-- acquisition.py lines 192-194. -/
def VECTOR_BEHAVIOURS : List (String × Provider) :=
  [("fixed-drive", Provider.fixedDriveVector)]

/-- acquisition.py lines 195-198. -/
def INTERVENTION_BEHAVIOURS : List (String × Provider) :=
  [("execute", Provider.executeIntervention),
   ("monitor", Provider.monitorIntervention)]

/-- control.py lines 95-98. -/
def DELAY_BEHAVIOURS : List (String × Provider) :=
  [("fixed", Provider.fixedDelay), ("random", Provider.randomDelay)]

/-- The selection step of `acquisition_technique_factory`
(acquisition.py lines 201-208): the parameter lookups and behaviour
table lookups, in source order (tkb, vcb, ivb); `none` models the
KeyError caught on line 205.  On success the inheritance tuple is
`(ivb, tkb, vcb, AcquisitionTechnique)`. -/
def acqSelection (ps : List (String × String)) : Option ComposedTechnique :=
  (List.lookup TOOLKIT_BEHAVIOUR_KEY ps).bind fun tname =>
  (List.lookup tname TOOLKIT_BEHAVIOURS).bind fun tkb =>
  (List.lookup VECTOR_BEHAVIOUR_KEY ps).bind fun vname =>
  (List.lookup vname VECTOR_BEHAVIOURS).bind fun vcb =>
  (List.lookup INTERVENTION_BEHAVIOUR_KEY ps).bind fun iname =>
  (List.lookup iname INTERVENTION_BEHAVIOURS).map fun ivb =>
  ⟨[ivb, tkb, vcb, Provider.acquisitionBase]⟩

/-- `acquisition_technique_factory` (acquisition.py lines 175-209):
compose the selected behaviours or raise. -/
def acquisition_technique_factory (ps : List (String × String)) :
    Except CompositionException ComposedTechnique :=
  match acqSelection ps with
  | none => Except.error CompositionException.compositionError
  | some t => Except.ok t

/-- The selection step of `control_technique_factory` (control.py
lines 101-106); the inheritance tuple is `(db, ControlTechnique)`. -/
def ctlSelection (ps : List (String × String)) : Option ComposedTechnique :=
  (List.lookup DELAY_BEHAVIOUR_KEY ps).bind fun dname =>
  (List.lookup dname DELAY_BEHAVIOURS).map fun db =>
  ⟨[db, Provider.controlBase]⟩

/-- `control_technique_factory` (control.py lines 84-107). -/
def control_technique_factory (ps : List (String × String)) :
    Except CompositionException ComposedTechnique :=
  match ctlSelection ps with
  | none => Except.error CompositionException.compositionError
  | some t => Except.ok t

/-- The hooks an acquisition technique must resolve: they are all
called by `AcquisitionTechnique.sample` (acquisition.py lines 70-102),
or are `acquire` itself. -/
def requiredAcquisitionHooks : List Hook :=
  [Hook.attachToolkit, Hook.detachToolkit, Hook.attachVector, Hook.acquire,
   Hook.detachVector, Hook.transferAcquiredImage]

lemma lookup_singleton {α β : Type} [BEq α] {a k : α} {v b : β}
    (h : List.lookup a [(k, v)] = some b) : b = v := by
  cases hak : a == k
  · simp [List.lookup, hak] at h
  · simp [List.lookup, hak] at h
    exact h.symm

lemma lookup_pair {α β : Type} [BEq α] {a k1 k2 : α} {v1 v2 b : β}
    (h : List.lookup a [(k1, v1), (k2, v2)] = some b) : b = v1 ∨ b = v2 := by
  cases h1 : a == k1
  · cases h2 : a == k2
    · simp [List.lookup, h1, h2] at h
    · simp [List.lookup, h1, h2] at h
      exact Or.inr h.symm
  · simp [List.lookup, h1] at h
    exact Or.inl h.symm

/-- Every technique the acquisition factory can return is one of the
two concrete compositions. -/
lemma acquisition_factory_ok_cases (ps : List (String × String))
    (t : ComposedTechnique) (ht : acquisition_technique_factory ps = .ok t) :
    t.providers = [Provider.executeIntervention, Provider.opticalToolkit,
        Provider.fixedDriveVector, Provider.acquisitionBase] ∨
    t.providers = [Provider.monitorIntervention, Provider.opticalToolkit,
        Provider.fixedDriveVector, Provider.acquisitionBase] := by
  have hsel : acqSelection ps = some t := by
    cases hs : acqSelection ps <;>
      simp [acquisition_technique_factory, hs] at ht <;> simp [ht]
  rw [acqSelection] at hsel
  simp only [Option.bind_eq_some, Option.map_eq_some'] at hsel
  obtain ⟨tname, h1, tkb, h2, vname, h3, vcb, h4, iname, h5, ivb, h6, h7⟩ := hsel
  have htkb := lookup_singleton h2
  have hvcb := lookup_singleton h4
  have hivb := lookup_pair h6
  subst htkb
  subst hvcb
  rcases hivb with h | h <;> subst h <;> rw [← h7] <;> [exact Or.inl rfl; exact Or.inr rfl]

/-- Every technique the control factory can return is one of the two
concrete compositions. -/
lemma control_factory_ok_cases (ps : List (String × String))
    (t : ComposedTechnique) (ht : control_technique_factory ps = .ok t) :
    t.providers = [Provider.fixedDelay, Provider.controlBase] ∨
    t.providers = [Provider.randomDelay, Provider.controlBase] := by
  have hsel : ctlSelection ps = some t := by
    cases hs : ctlSelection ps <;>
      simp [control_technique_factory, hs] at ht <;> simp [ht]
  rw [ctlSelection] at hsel
  simp only [Option.bind_eq_some, Option.map_eq_some'] at hsel
  obtain ⟨dname, h1, db, h2, h3⟩ := hsel
  have hdb := lookup_pair h2
  rcases hdb with h | h <;> subst h <;> rw [← h3] <;> [exact Or.inl rfl; exact Or.inr rfl]

/-- C4: the factories fail only with CompositionError, and any
Technique instance a factory returns resolves every required hook to a
real implementation — a composed instance with an unresolved required
hook is never returned (for acquisition: the six sample-cycle hooks;
for control: idle). -/
theorem factories_reject_or_resolve (ps : List (String × String)) :
    (∀ e, acquisition_technique_factory ps = .error e → e = .compositionError) ∧
    (∀ t, acquisition_technique_factory ps = .ok t →
      ∀ h ∈ requiredAcquisitionHooks, (resolveHook t h).isSome = true) ∧
    (∀ e, control_technique_factory ps = .error e → e = .compositionError) ∧
    (∀ t, control_technique_factory ps = .ok t →
      (resolveHook t Hook.idle).isSome = true) := by
  refine ⟨?_, ?_, ?_, ?_⟩
  · intro e he
    cases e
    rfl
  · intro t ht h hmem
    rcases acquisition_factory_ok_cases ps t ht with hp | hp <;>
      fin_cases hmem <;> rw [resolveHook, hp] <;> decide
  · intro e he
    cases e
    rfl
  · intro t ht
    rcases control_factory_ok_cases ps t ht with hp | hp <;>
      rw [resolveHook, hp] <;> decide

/-- C5: in any composed acquisition technique, hook dispatch is
first-match-wins over the fixed order intervention fragment, toolkit,
vector, base technique: whenever two providers at positions `i < j`
both implement a hook, the resolved implementation comes from a
position no later than `i` (the earliest implementing provider), never
from `j`. -/
theorem first_provider_wins (ps : List (String × String)) (t : ComposedTechnique)
    (ht : acquisition_technique_factory ps = .ok t) (h : Hook)
    (i j : Fin t.providers.length) (hij : i < j)
    (hi : implementsHook (t.providers.get i) h = true)
    (hj : implementsHook (t.providers.get j) h = true) :
    ∃ i0 : Fin t.providers.length, i0 ≤ i ∧
      resolveHook t h = some (t.providers.get i0) ∧
      implementsHook (t.providers.get i0) h = true := by
  obtain ⟨prov⟩ := t
  rcases acquisition_factory_ok_cases ps ⟨prov⟩ ht with hp | hp <;>
    simp only at hp <;> subst hp <;> revert hij hi hj <;> revert h i j <;> decide

/-- The parameter dictionary selecting optical toolkit, fixed-drive
vector and execute intervention. -/
def psW : List (String × String) :=
  [("technique.behaviour.toolkit", "optical"),
   ("technique.behaviour.vector", "fixed-drive"),
   ("technique.behaviour.intervention", "execute")]

/-- The composition the factory returns for `psW`. -/
def tExec : ComposedTechnique :=
  ⟨[Provider.executeIntervention, Provider.opticalToolkit,
    Provider.fixedDriveVector, Provider.acquisitionBase]⟩

/-- Witness for C4 on a concrete selection: the factory's output
resolves the `acquire` hook. -/
theorem factories_reject_or_resolve_witness :
    (resolveHook tExec Hook.acquire).isSome = true :=
  (factories_reject_or_resolve psW).2.1 tExec (by rfl) Hook.acquire (by decide)

/-- Witness for C5 at a real overlap: both the intervention fragment
(position 0) and the base technique (position 3) implement `acquire`;
dispatch picks a position no later than 0, i.e. the intervention. -/
theorem first_provider_wins_witness :
    ∃ i0 : Fin tExec.providers.length, i0 ≤ (⟨0, by decide⟩ : Fin tExec.providers.length) ∧
      resolveHook tExec Hook.acquire = some (tExec.providers.get i0) ∧
      implementsHook (tExec.providers.get i0) Hook.acquire = true :=
  first_provider_wins psW tExec (by rfl) Hook.acquire
    ⟨0, by decide⟩ ⟨3, by decide⟩ (by decide) (by decide) (by decide)

end Technique

namespace Agent

/-- JSON values, the message currency of the guest-agent wire protocol
(agent.py; one JSON object per newline-terminated line). -/
inductive Json where
  | null
  | bool (b : Bool)
  | num (n : Int)
  | str (s : String)
  | arr (items : List Json)
  | obj (fields : List (String × Json))

/-- Whitespace skipping of the JSON reader. -/
def skipWs : List Char → List Char
  | [] => []
  | c :: cs =>
    if c = ' ' ∨ c = '\t' ∨ c = '\n' ∨ c = '\r' then skipWs cs else c :: cs

/-- JSON string escapes used by the protocol (the model of `json.loads`
covers the escapes that can occur in the console's messages). -/
def unescapeChar (c : Char) : Char :=
  if c = 'n' then '\n' else if c = 't' then '\t' else if c = 'r' then '\r' else c

/-- Body of a JSON string after the opening quote: the decoded
characters and the input after the closing quote. -/
def parseStringAux : List Char → Option (List Char × List Char)
  | [] => none
  | c :: cs =>
    if c = '"' then some ([], cs)
    else if c = '\\' then
      match cs with
      | [] => none
      | e :: cs2 =>
        match parseStringAux cs2 with
        | none => none
        | some (s, r) => some (unescapeChar e :: s, r)
    else
      match parseStringAux cs with
      | none => none
      | some (s, r) => some (c :: s, r)

/-- JSON integer literals (the console protocol carries integers). -/
def parseNumber (cs : List Char) : Option (Json × List Char) :=
  let neg := match cs with
    | '-' :: _ => true
    | _ => false
  let cs1 := match cs with
    | '-' :: t => t
    | _ => cs
  let ds : List Char := cs1.takeWhile fun c => c.isDigit
  let rest : List Char := cs1.dropWhile fun c => c.isDigit
  if ds.isEmpty then none
  else
    let n : Int := ds.foldl (fun acc c => acc * 10 + (Int.ofNat c.toNat - 48)) 0
    some (Json.num (if neg then -n else n), rest)

mutual

/-- Recursive-descent reader for the JSON subset spoken on the wire
(objects, arrays, strings, integers, booleans, null), the model of
`json.loads` for one protocol line; `fuel` bounds nesting and makes the
reader total. -/
def parseJson : Nat → List Char → Option (Json × List Char)
  | 0, _ => none
  | fuel + 1, cs =>
    match skipWs cs with
    | '"' :: r =>
      match parseStringAux r with
      | none => none
      | some (s, r2) => some (Json.str (String.mk s), r2)
    | 'n' :: 'u' :: 'l' :: 'l' :: r => some (Json.null, r)
    | 't' :: 'r' :: 'u' :: 'e' :: r => some (Json.bool true, r)
    | 'f' :: 'a' :: 'l' :: 's' :: 'e' :: r => some (Json.bool false, r)
    | '\x7b' :: r =>
      match skipWs r with
      | '\x7d' :: r2 => some (Json.obj [], r2)
      | r2 =>
        match parseFieldList fuel r2 with
        | none => none
        | some (fs, r3) => some (Json.obj fs, r3)
    | '[' :: r =>
      match skipWs r with
      | ']' :: r2 => some (Json.arr [], r2)
      | r2 =>
        match parseItemList fuel r2 with
        | none => none
        | some (xs, r3) => some (Json.arr xs, r3)
    | c :: r => if c.isDigit ∨ c = '-' then parseNumber (c :: r) else none
    | [] => none

/-- The members of a JSON object, after the opening brace (at least one
member). -/
def parseFieldList : Nat → List Char → Option (List (String × Json) × List Char)
  | 0, _ => none
  | fuel + 1, cs =>
    match skipWs cs with
    | '"' :: r =>
      match parseStringAux r with
      | none => none
      | some (key, r1) =>
        match skipWs r1 with
        | ':' :: r2 =>
          match parseJson fuel r2 with
          | none => none
          | some (v, r3) =>
            match skipWs r3 with
            | ',' :: r4 =>
              match parseFieldList fuel r4 with
              | none => none
              | some (fs, r5) => some ((String.mk key, v) :: fs, r5)
            | '\x7d' :: r4 => some ([(String.mk key, v)], r4)
            | _ => none
        | _ => none
    | _ => none

/-- The items of a JSON array, after the opening bracket (at least one
item). -/
def parseItemList : Nat → List Char → Option (List Json × List Char)
  | 0, _ => none
  | fuel + 1, cs =>
    match parseJson fuel cs with
    | none => none
    | some (v, r) =>
      match skipWs r with
      | ',' :: r2 =>
        match parseItemList fuel r2 with
        | none => none
        | some (xs, r3) => some (v :: xs, r3)
      | ']' :: r2 => some ([v], r2)
      | _ => none

end

/-- `json.loads` on one wire line: one JSON document, nothing but
whitespace after it; `none` models the `ValueError` on malformed
input. -/
def loads (s : List Char) : Option Json :=
  match parseJson (s.length + 1) s with
  | some (j, rest) => if skipWs rest = [] then some j else none
  | none => none

/-- First line of a buffer known to contain a newline: the characters
before the first `'\n'` and those after it
(`self.buffer.split("\n", 1)`, agent.py line 193). -/
def splitLine : List Char → List Char × List Char
  | [] => ([], [])
  | c :: cs =>
    if c = '\n' then ([], cs)
    else
      let p := splitLine cs
      (c :: p.1, p.2)

/-- The receive loop of `Console.receive` (agent.py lines 191-193):
`while not "\n" in self.buffer: self.buffer += self.socket.recv(1024)`,
then split off the first line.  The transport is modelled as the list
of chunks successive `recv` calls return; `none` means the transport
data ran out before a complete line accumulated (the socket would
block).  Returns the line, the retained buffer, and the chunks not yet
consumed. -/
def recvLine : List Char → List (List Char) → Option (List Char × List Char × List (List Char))
  | buffer, chunks =>
    if buffer.contains '\n' then
      some ((splitLine buffer).1, (splitLine buffer).2, chunks)
    else
      match chunks with
      | [] => none
      | c :: rest => recvLine (buffer ++ c) rest

/-- A decoded console message: `Reply(command, parameters)` or
`Error(source, message)` (agent.py lines 196-203, 220-258). -/
inductive Received where
  | reply (command : Json) (parameters : Json)
  | error (source : Json) (message : Json)

/-- The exceptions of the console embedding: `agentError s m` is the
`RuntimeError("Guest agent error in {}: {}".format(source, message))`
raised by `Console.call` (agent.py lines 155-157), which the spec's
taxonomy names `AgentError{source, message}`; `protocolError` is the
`RuntimeError("Console received malformed/unexpected message")` family
(lines 204-210); `starved` models the receive loop blocking forever on
a transport that never completes a line. -/
inductive AgentException where
  | agentError (source : Json) (message : Json)
  | protocolError
  | starved

/-- Field access on a decoded JSON object (`message["reply"]` etc.);
`none` models the `KeyError`/`TypeError` caught in `Console.receive`. -/
def jsonField (j : Json) (key : String) : Option Json :=
  match j with
  | Json.obj fields => List.lookup key fields
  | _ => none

/-- Interpretation of one received line (agent.py lines 195-210):
decode it, then build a `Reply` from `message["reply"]` or an `Error`
from `message["error"]`; anything else is the malformed/unexpected
`RuntimeError`, i.e. `protocolError`. -/
def interpretLine (line : List Char) : Except AgentException Received :=
  match loads line with
  | none => Except.error AgentException.protocolError
  | some msg =>
    match jsonField msg "reply" with
    | some rv =>
      match jsonField rv "command", jsonField rv "parameters" with
      | some c, some p => Except.ok (Received.reply c p)
      | _, _ => Except.error AgentException.protocolError
    | none =>
      match jsonField msg "error" with
      | some ev =>
        match jsonField ev "source", jsonField ev "message" with
        | some s, some m => Except.ok (Received.error s m)
        | _, _ => Except.error AgentException.protocolError
      | none => Except.error AgentException.protocolError

/-- The state of a `Console`: the retained byte buffer (agent.py line
130), the transport chunks not yet consumed, and the requests sent so
far (abstracted to their JSON documents). -/
structure ConsoleState where
  buffer : List Char
  incoming : List (List Char)
  sent : List Json

/-- The JSON document `Console.request` sends (agent.py lines 168-173). -/
def requestJson (command : String) (parameters : Json) : Json :=
  Json.obj [("request",
    Json.obj [("command", Json.str command), ("parameters", parameters)])]

/-- `Console.request` (agent.py lines 160-179): one request document,
one line, on the wire. -/
def request (st : ConsoleState) (command : String) (parameters : Json) : ConsoleState :=
  { st with sent := st.sent ++ [requestJson command parameters] }

/-- `Console.receive` (agent.py lines 181-212): accumulate a line,
interpret it, keep the bytes after the newline in the buffer. -/
def receive (st : ConsoleState) : Except AgentException (Received × ConsoleState) :=
  match recvLine st.buffer st.incoming with
  | none => Except.error AgentException.starved
  | some (line, buf, rest) =>
    match interpretLine line with
    | Except.error e => Except.error e
    | Except.ok m => Except.ok (m, { st with buffer := buf, incoming := rest })

/-- `Console.call` (agent.py lines 142-158): send one request, receive
one message; a `Reply` yields its parameters, an `Error` raises
`RuntimeError("Guest agent error in {}: {}".format(source, message))`
(`AgentError` in the spec's taxonomy). -/
def call (st : ConsoleState) (command : String) (parameters : Json) :
    Except AgentException (Json × ConsoleState) :=
  let st1 := request st command parameters
  match receive st1 with
  | Except.error e => Except.error e
  | Except.ok (Received.reply _ p, st2) => Except.ok (p, st2)
  | Except.ok (Received.error s m, _) =>
      Except.error (AgentException.agentError s m)

/-- C6: `Console.call` sends exactly one request and then: if the next
wire line decodes to a reply, it returns that reply's parameters (with
the post-newline bytes retained in the buffer); if the next wire line
decodes to an error with source `s` and message `m`, it raises
AgentError carrying exactly `s` and `m`. -/
theorem call_reply_or_error (st : ConsoleState) (command : String) (parameters : Json)
    (line buf : List Char) (rest : List (List Char))
    (hline : recvLine st.buffer st.incoming = some (line, buf, rest)) :
    (∀ c p, interpretLine line = Except.ok (Received.reply c p) →
      call st command parameters =
        Except.ok (p, ⟨buf, rest, st.sent ++ [requestJson command parameters]⟩)) ∧
    (∀ s m, interpretLine line = Except.ok (Received.error s m) →
      call st command parameters = Except.error (AgentException.agentError s m)) := by
  constructor <;> intro a b hint <;>
    simp [call, request, receive, hline, hint]

/-- The wire line `{"reply":{"command":"status","parameters":{"cpu":1}}}`. -/
def replyLine : List Char :=
  "\x7b\"reply\":\x7b\"command\":\"status\",\"parameters\":\x7b\"cpu\":1\x7d\x7d\x7d".toList

/-- The wire line `{"error":{"source":"x","message":"y"}}`. -/
def errorLine : List Char :=
  "\x7b\"error\":\x7b\"source\":\"x\",\"message\":\"y\"\x7d\x7d".toList

/-- A console about to receive the status reply line. -/
def stReply : ConsoleState := ⟨[], [replyLine ++ ['\n']], []⟩

/-- A console about to receive the error line. -/
def stError : ConsoleState := ⟨[], [errorLine ++ ['\n']], []⟩

/-- Witness for C6: the status reply yields its parameters object
`{"cpu":1}`, and the error line raises AgentError with source `"x"`
and message `"y"`. -/
theorem call_reply_or_error_witness :
    call stReply "status" (Json.obj []) =
      Except.ok (Json.obj [("cpu", Json.num 1)],
        ⟨[], [], [requestJson "status" (Json.obj [])]⟩) ∧
    call stError "status" (Json.obj []) =
      Except.error (AgentException.agentError (Json.str "x") (Json.str "y")) :=
  ⟨(call_reply_or_error stReply "status" (Json.obj []) replyLine [] [] (by rfl)).1
      (Json.str "status") (Json.obj [("cpu", Json.num 1)]) (by rfl),
   (call_reply_or_error stError "status" (Json.obj []) errorLine [] [] (by rfl)).2
      (Json.str "x") (Json.str "y") (by rfl)⟩

lemma splitLine_append (m t : List Char) (hm : '\n' ∉ m) :
    splitLine (m ++ '\n' :: t) = (m, t) := by
  induction m with
  | nil => simp [splitLine]
  | cons c m ih =>
    have hc : c ≠ '\n' := by
      intro h
      exact hm (h ▸ List.mem_cons_self c m)
    have hm2 : '\n' ∉ m := fun h => hm (List.mem_cons_of_mem c h)
    simp [splitLine, hc, ih hm2]

/-- If a buffer followed by further data carries the newline-terminated
message `m` and the buffer already contains a newline, the buffer
starts with the whole of `m ++ '\n'`. -/
lemma buffer_decomp :
    ∀ (m : List Char), '\n' ∉ m → ∀ (b x t : List Char), b ++ x = m ++ '\n' :: t →
      b.contains '\n' = true → ∃ b2, b = m ++ '\n' :: b2 ∧ t = b2 ++ x := by
  intro m hm
  induction m with
  | nil =>
    intro b x t happ hb
    cases b with
    | nil =>
      rw [Experiment.contains_eq_decide_mem] at hb
      simp at hb
    | cons c b2 =>
      simp at happ
      obtain ⟨hc, hrest⟩ := happ
      exact ⟨b2, by simp [hc], hrest.symm⟩
  | cons cm m ih =>
    intro b x t happ hb
    cases b with
    | nil =>
      rw [Experiment.contains_eq_decide_mem] at hb
      simp at hb
    | cons c b2 =>
      simp at happ
      obtain ⟨hc, hrest⟩ := happ
      subst hc
      have hcm : c ≠ '\n' := by
        intro h
        exact hm (h ▸ List.mem_cons_self c m)
      have hm2 : '\n' ∉ m := fun h => hm (List.mem_cons_of_mem c h)
      have hb2 : b2.contains '\n' = true := by
        rw [Experiment.contains_eq_decide_mem] at hb ⊢
        simp at hb ⊢
        rcases hb with h | h
        · exact absurd h.symm hcm
        · exact h
      obtain ⟨b3, h1, h2⟩ := ih hm2 b2 x t hrest hb2
      exact ⟨b3, by simp [h1], h2⟩

/-- C7: the console's receive loop is chunking-independent.  For any
starting buffer `b` and any way the transport splits the stream into
chunks, as soon as the accumulated data `b ++ cs.flatten` amounts to a
newline-free message `m`, its terminating newline and trailing bytes
`t`, `receive` decodes exactly the line `m` — the same line as if it
had arrived in one read — and every byte after the newline is retained
(in the buffer, or still unconsumed in the transport) for the next
receive. -/
theorem console_buffer_split_independent (b m t : List Char) (cs : List (List Char))
    (hm : '\n' ∉ m)
    (hjoin : b ++ cs.flatten = m ++ '\n' :: t) :
    ∃ buf rest, recvLine b cs = some (m, buf, rest) ∧ buf ++ rest.flatten = t := by
  induction cs generalizing b with
  | nil =>
    simp only [List.flatten_nil, List.append_nil] at hjoin
    subst hjoin
    have hcont : (m ++ '\n' :: t).contains '\n' = true := by
      rw [Experiment.contains_eq_decide_mem]
      simp
    refine ⟨t, [], ?_, by simp⟩
    simp [recvLine, hcont, splitLine_append m t hm]
  | cons c cs ih =>
    by_cases hb : b.contains '\n' = true
    · obtain ⟨b2, h1, h2⟩ := buffer_decomp m hm b ((c :: cs).flatten) t hjoin hb
      refine ⟨b2, c :: cs, ?_, h2.symm⟩
      simp [recvLine, hb, h1, splitLine_append m b2 hm]
    · have hb' : b.contains '\n' = false := by
        cases hx : b.contains '\n'
        · rfl
        · exact absurd hx hb
      have hmemb : '\n' ∉ b := by
        rw [Experiment.contains_eq_decide_mem] at hb'
        exact of_decide_eq_false hb'
      have hstep : recvLine b (c :: cs) = recvLine (b ++ c) cs := by
        simp [recvLine, hmemb]
      rw [hstep]
      apply ih
      rw [List.flatten_cons] at hjoin
      rw [List.append_assoc]
      exact hjoin

/-- First transport delivery of the split reply. -/
def splitChunk1 : List Char := "\x7b\"reply\":\x7b\"command\":\"s".toList

/-- Second transport delivery of the split reply, ending the line. -/
def splitChunk2 : List Char :=
  "tatus\",\"parameters\":\x7b\x7d\x7d\x7d".toList ++ ['\n']

/-- The whole message the two deliveries carry. -/
def splitMsg : List Char :=
  "\x7b\"reply\":\x7b\"command\":\"status\",\"parameters\":\x7b\x7d\x7d\x7d".toList

/-- Witness for C7: the reply split across two transport reads is
reassembled into the single message `splitMsg`. -/
theorem console_buffer_split_independent_witness :
    ∃ buf rest, recvLine [] [splitChunk1, splitChunk2] = some (splitMsg, buf, rest) ∧
      buf ++ rest.flatten = [] :=
  console_buffer_split_independent [] splitMsg [] [splitChunk1, splitChunk2]
    (by decide) (by decide)

end Agent

end Pypette
